import Mathlib

/-!
# etcdv3 backend adapter (`backend/etcdv3/etcdv3.go`)

A shallow embedding of the adapter's operations.  The etcd client library is
external to the adapter, so it appears here as a table of methods `KV σ` acting
on an arbitrary store state `σ`; every request the adapter issues through that
table is recorded in `World.calls`.
-/

namespace Etcdv3

/-! ## Go values -/

/-- One Go `byte`. -/
abbrev Byte := UInt8

/-- A Go `string`: an immutable sequence of bytes, not necessarily valid UTF-8. -/
abbrev GoString := List Byte

/-- A Go `[]byte`: `none` is the nil slice, `some bs` a non-nil slice holding `bs`. -/
abbrev Bytes := Option (List Byte)

/-- Go conversion `string(b)` of a byte slice; the nil slice gives the empty string. -/
def Bytes.toGoString : Bytes → GoString
  | none => []
  | some bs => bs

/-- Go conversion `[]byte(s)` of a string: a non-nil slice with the bytes of `s`. -/
def GoString.toBytes (s : GoString) : Bytes := some s

/-- A Go `error` value, identified by its message. -/
structure Error where
  msg : String
  deriving DecidableEq, Repr

/-- Result of a call into the store client: `(nil, err)` or `(resp, nil)`. -/
abbrev Outcome (α : Type) := Except Error α

/-! ## `time` and `context` -/

/-- Instants and durations, in nanoseconds. -/
abbrev Time := Nat

/-- The constant `time.Second`. -/
def Second : Time := 1000000000

/-- Package variable `EtcdTimeout = 5 * time.Second`; no code of the adapter assigns to it. -/
def EtcdTimeout : Time := 5 * Second

/-- A `context.Context`, as the chain of constructors that built it. -/
inductive Context where
  | background
  | todo
  | withDeadline (parent : Context) (d : Time)
  | withCancel (parent : Context)
  deriving DecidableEq, Repr

/-- Method `Context.Deadline`: the earliest deadline along the chain, if any. -/
def Context.Deadline : Context → Option Time
  | .background => none
  | .todo => none
  | .withDeadline parent d =>
    match parent.Deadline with
    | some pd => some (min pd d)
    | none => some d
  | .withCancel parent => parent.Deadline

/-- The call `context.WithTimeout(parent, timeout)` made at instant `now`. -/
def WithTimeout (parent : Context) (timeout : Time) (now : Time) : Context :=
  .withDeadline parent (now + timeout)

/-- The call `context.WithCancel(parent)`. -/
def WithCancel (parent : Context) : Context :=
  .withCancel parent

/-! ## Types of the etcd client library -/

/-- Record `mvccpb.KeyValue`. -/
structure KeyValue where
  Key : Bytes
  CreateRevision : Int
  ModRevision : Int
  Version : Int
  Value : Bytes
  Lease : Int
  deriving DecidableEq, Repr

/-- Type `mvccpb.Event_EventType`. -/
inductive EventType where
  | PUT
  | DELETE
  deriving DecidableEq, Repr

/-- Record `mvccpb.Event`; the library always sets `Kv`. -/
structure Event where
  Type_ : EventType
  Kv : KeyValue
  PrevKv : Option KeyValue
  deriving DecidableEq, Repr

/-- Response `clientv3.GetResponse` (the fields besides the header). -/
structure GetResponse where
  Kvs : List KeyValue
  More : Bool
  Count : Int
  deriving DecidableEq, Repr

/-- Response `clientv3.PutResponse`. -/
structure PutResponse where
  PrevKv : Option KeyValue
  deriving DecidableEq, Repr

/-- One notification `clientv3.WatchResponse` received from a watch channel. -/
structure WatchResponse where
  Events : List Event
  CompactRevision : Int
  Canceled : Bool
  Created : Bool
  closeErr : Option Error
  deriving DecidableEq, Repr

/-- Type `clientv3.SortTarget`. -/
inductive SortTarget where
  | SortByKey
  | SortByVersion
  | SortByCreateRevision
  | SortByModRevision
  | SortByValue
  deriving DecidableEq, Repr

/-- Type `clientv3.SortOrder`. -/
inductive SortOrder where
  | SortNone
  | SortAscend
  | SortDescend
  deriving DecidableEq, Repr

/-- The `clientv3.OpOption` values the adapter builds. -/
inductive OpOption where
  | WithPrefix
  | WithSort (target : SortTarget) (order : SortOrder)
  deriving DecidableEq, Repr

/-- The methods of `*goetcd.Client` the adapter calls, over a store state `σ`.
`Watch` yields the notifications its channel delivers before it is closed. -/
structure KV (σ : Type) where
  Get : Context → GoString → List OpOption → σ → Outcome GetResponse × σ
  Put : Context → GoString → GoString → σ → Outcome PutResponse × σ
  Watch : Context → GoString → List OpOption → σ → List WatchResponse × σ

/-- A request issued to the store client. -/
inductive Request where
  | get (ctx : Context) (key : GoString) (opts : List OpOption)
  | put (ctx : Context) (key : GoString) (val : GoString)
  | watch (ctx : Context) (key : GoString) (opts : List OpOption)
  deriving DecidableEq, Repr

/-- The context a request was issued under. -/
def Request.ctx : Request → Context
  | .get ctx _ _ => ctx
  | .put ctx _ _ => ctx
  | .watch ctx _ _ => ctx

/-- Everything outside the adapter: the store behind the client handle and the
requests issued to it so far, oldest first. -/
structure World (σ : Type) where
  store : σ
  calls : List Request

/-! ## Types of package `backend` -/

/-- Modelled from the spec: the declaration of `backend.KVPair` is not among the
sources; the glossary gives "a key string mapped to an opaque byte payload" and
the adapter fills the fields `Key` and `Value`. -/
structure KVPair where
  Key : GoString
  Value : Bytes
  deriving DecidableEq, Repr

/-- Modelled from the spec: `backend.KVPairs`, a slice of pairs whose declaration
is not among the sources; `none` is the nil slice. -/
abbrev KVPairs := Option (List KVPair)

/-- The elements of a non-nil `backend.KVPairs`. -/
abbrev KVList := List KVPair

/-- Modelled from the spec: the declaration of `backend.Response` is not among the
sources; the adapter builds it positionally from a value and an error. -/
structure Response where
  Value : Bytes
  Error : Option Error
  deriving DecidableEq, Repr

/-- A channel as seen over a whole run: the values whose send on it completed, in
order, and whether it was closed. -/
structure Chan (α : Type) where
  sent : List α
  closed : Bool
  deriving DecidableEq, Repr

/-! ## The adapter -/

/-- The struct `Client`. -/
structure Client (σ : Type) where
  client : KV σ
  waitIndex : Nat

/-- What a method leaves behind: its return value, the receiver, and the world. -/
structure Ret (σ : Type) (α : Type) where
  ret : α
  self : Client σ
  world : World σ

/-- The call `c.client.Get(ctx, key, opts...)`. -/
def callGet {σ : Type} (kv : KV σ) (ctx : Context) (key : GoString) (opts : List OpOption)
    (w : World σ) : Outcome GetResponse × World σ :=
  let r := kv.Get ctx key opts w.store
  (r.1, { store := r.2, calls := w.calls ++ [Request.get ctx key opts] })

/-- The call `c.client.Put(ctx, key, val)`. -/
def callPut {σ : Type} (kv : KV σ) (ctx : Context) (key val : GoString)
    (w : World σ) : Outcome PutResponse × World σ :=
  let r := kv.Put ctx key val w.store
  (r.1, { store := r.2, calls := w.calls ++ [Request.put ctx key val] })

/-- The call `c.client.Watch(ctx, key, opts...)`, with the notifications its
channel holds for the `range` loop. -/
def callWatch {σ : Type} (kv : KV σ) (ctx : Context) (key : GoString) (opts : List OpOption)
    (w : World σ) : List WatchResponse × World σ :=
  let r := kv.Watch ctx key opts w.store
  (r.1, { store := r.2, calls := w.calls ++ [Request.watch ctx key opts] })

/-- Function `New`, with `goetcd.New` as the parameter `dial`. -/
def New {σ : Type} (dial : List GoString → Outcome (KV σ)) (machines : List GoString) :
    Outcome (Client σ) :=
  match dial machines with
  | .error err =>
    .error ⟨"creating new etcdv3 client for crypt.backend.Client: " ++ err.msg⟩
  | .ok newClient => .ok { client := newClient, waitIndex := 0 }

/-- Method `Client.GetWithContext`. -/
def Client.GetWithContext {σ : Type} (c : Client σ) (ctx : Context) (key : GoString) (w : World σ) :
    Ret σ (Bytes × Option Error) :=
  let r := callGet c.client ctx key [] w
  match r.1 with
  | .error err => ⟨(none, some err), c, r.2⟩
  | .ok resp =>
    if h : resp.Kvs.length > 0 then
      ⟨((resp.Kvs[0]).Value, none), c, r.2⟩
    else
      ⟨(none, none), c, r.2⟩

/-- Method `Client.Get`, called at instant `now`.  The deferred `cancel()` runs
after the result is fixed and is not represented. -/
def Client.Get {σ : Type} (c : Client σ) (now : Time) (key : GoString) (w : World σ) :
    Ret σ (Bytes × Option Error) :=
  let ctx := WithTimeout Context.todo EtcdTimeout now
  c.GetWithContext ctx key w

/-- Method `Client.ListWithContext`. -/
def Client.ListWithContext {σ : Type} (c : Client σ) (ctx : Context) (key : GoString) (w : World σ) :
    Ret σ (KVPairs × Option Error) :=
  let r := callGet c.client ctx key
    [OpOption.WithPrefix, OpOption.WithSort SortTarget.SortByKey SortOrder.SortDescend] w
  match r.1 with
  | .error err => ⟨(none, some err), c, r.2⟩
  | .ok resp =>
    if resp.Kvs.length = 0 then
      ⟨(none, none), c, r.2⟩
    else
      let list := resp.Kvs.foldl
        (fun (list : KVList) ev => list ++ [{ Key := ev.Key.toGoString, Value := ev.Value }])
        []
      ⟨(some list, none), c, r.2⟩

/-- Method `Client.List`, called at instant `now`; the deferred `cancel()` is not
represented. -/
def Client.List {σ : Type} (c : Client σ) (now : Time) (key : GoString) (w : World σ) :
    Ret σ (KVPairs × Option Error) :=
  let ctx := WithTimeout Context.todo EtcdTimeout now
  c.ListWithContext ctx key w

/-- Method `Client.SetWithContext`. -/
def Client.SetWithContext {σ : Type} (c : Client σ) (ctx : Context) (key value : GoString)
    (w : World σ) : Ret σ (Option Error) :=
  let r := callPut c.client ctx key value w
  match r.1 with
  | .error err => ⟨some err, c, r.2⟩
  | .ok _ => ⟨none, c, r.2⟩

/-- Method `Client.Set`, called at instant `now`; the deferred `cancel()` is not
represented. -/
def Client.Set {σ : Type} (c : Client σ) (now : Time) (key : GoString) (value : Bytes) (w : World σ) :
    Ret σ (Option Error) :=
  let ctx := WithTimeout Context.todo EtcdTimeout now
  c.SetWithContext ctx key value.toGoString w

/-- The statement `respChan <- r` on the unbuffered channel `make(chan, 0)`, when
the consumer receives `receives` responses from it over the whole run: the send
completes if the consumer still has a receive to make, and otherwise blocks for
good, so that no later send of the goroutine completes either. -/
def send (receives : Nat) (respChan : Chan Response) (r : Response) : Chan Response :=
  if respChan.sent.length < receives then
    { respChan with sent := respChan.sent ++ [r] }
  else
    respChan

/-- The inner loop of the forwarding goroutine: one send per event. -/
def forwardEvents (receives : Nat) (respChan : Chan Response) (events : List Event) :
    Chan Response :=
  events.foldl
    (fun ch ev => send receives ch { Value := ev.Kv.Value, Error := none })
    respChan

/-- The outer loop of the forwarding goroutine, `for wresp := range rch`. -/
def forwardAll (receives : Nat) (respChan : Chan Response) (rch : List WatchResponse) :
    Chan Response :=
  rch.foldl (fun ch wresp => forwardEvents receives ch wresp.Events) respChan

/-- The goroutine `<-stop; cancel()`: its receive returns once a value was sent on
`stop` or `stop` was closed, and it calls `cancel()` then and only then. -/
def stopFires (stop : Chan Bool) : Bool :=
  !stop.sent.isEmpty || stop.closed

/-- What `WatchWithContext` hands back and leaves running: the returned channel
over the whole run, and whether the goroutine waiting on `stop` called
`cancel()` on the context handed to the store. -/
structure Watching extends Chan Response where
  cancelCalled : Bool
  deriving DecidableEq, Repr

/-- Method `Client.WatchWithContext`.  Besides the arguments of the source,
`stop` being the traffic the caller puts on the stop channel, `receives` is the
number of responses the caller receives from the returned channel over the whole
run.  The store's stream is the finite list of notifications it delivers before
it closes its channel, whether because of the cancellation or not. -/
def Client.WatchWithContext {σ : Type} (c : Client σ) (ctx : Context) (key : GoString)
    (stop : Chan Bool) (receives : Nat) (w : World σ) : Ret σ Watching :=
  let respChan : Chan Response := { sent := [], closed := false }
  let ctx := WithCancel ctx
  let r := callWatch c.client ctx key [OpOption.WithPrefix] w
  ⟨{ toChan := forwardAll receives respChan r.1, cancelCalled := stopFires stop }, c, r.2⟩

/-- Method `Client.Watch`; `receives` as in `Client.WatchWithContext`. -/
def Client.Watch {σ : Type} (c : Client σ) (key : GoString) (stop : Chan Bool) (receives : Nat)
    (w : World σ) : Ret σ Watching :=
  c.WatchWithContext Context.background key stop receives w

/-! ## A store that is a finite map -/

/-- Bytewise lexicographic order on keys: `bytes.Compare(a, b) <= 0`. -/
def keyLE : GoString → GoString → Bool
  | [], _ => true
  | _ :: _, [] => false
  | a :: as, b :: bs =>
    if a.toNat < b.toNat then true
    else if a.toNat = b.toNat then keyLE as bs
    else false

/-- The store of the round-trip and listing properties: a finite map from key to
bytes, kept as an association list.  It stands for the external store; none of
it is code of the adapter. -/
structure MapStore where
  kvs : List (GoString × List Byte)
  deriving DecidableEq, Repr

/-- The keys of the map are pairwise distinct. -/
def MapStore.UniqueKeys (m : MapStore) : Prop := (m.kvs.map Prod.fst).Nodup

instance (m : MapStore) : Decidable m.UniqueKeys :=
  inferInstanceAs (Decidable (m.kvs.map Prod.fst).Nodup)

/-- The value stored under exactly `key`, if any. -/
def MapStore.find (m : MapStore) (key : GoString) : Option (List Byte) :=
  (m.kvs.find? fun e => e.1 == key).map Prod.snd

/-- A put: the entry for `key` is replaced or added. -/
def MapStore.put (m : MapStore) (key val : GoString) : MapStore :=
  { kvs := (key, val) :: m.kvs.filter fun e => e.1 != key }

/-- The order by key requested among the options, if any. -/
def keySortOrder : List OpOption → SortOrder
  | [] => SortOrder.SortNone
  | OpOption.WithSort SortTarget.SortByKey order :: _ => order
  | _ :: rest => keySortOrder rest

/-- A range read: the entry under exactly `key`, or with `WithPrefix` the entries
whose key starts with `key`; ordered by key as `WithSort` requests. -/
def MapStore.range (m : MapStore) (key : GoString) (opts : List OpOption) :
    List (GoString × List Byte) :=
  let hits :=
    if opts.contains OpOption.WithPrefix then m.kvs.filter fun e => key.isPrefixOf e.1
    else m.kvs.filter fun e => e.1 == key
  match keySortOrder opts with
  | SortOrder.SortDescend => hits.insertionSort fun a b => keyLE b.1 a.1 = true
  | SortOrder.SortAscend => hits.insertionSort fun a b => keyLE a.1 b.1 = true
  | SortOrder.SortNone => hits

/-- The record returned for an entry of the map. -/
def MapStore.toRecord (e : GoString × List Byte) : KeyValue :=
  { Key := some e.1, CreateRevision := 0, ModRevision := 0, Version := 0, Value := some e.2,
    Lease := 0 }

/-- The client methods over the map store; its calls always succeed and its
watch delivers nothing. -/
def mapKV : KV MapStore where
  Get := fun _ key opts m =>
    (.ok { Kvs := (m.range key opts).map MapStore.toRecord, More := false,
           Count := (m.range key opts).length }, m)
  Put := fun _ key val m => (.ok { PrevKv := none }, m.put key val)
  Watch := fun _ _ _ m => ([], m)

/-- A client of the map store. -/
def mapClient : Client MapStore := { client := mapKV, waitIndex := 0 }

/-! ## Sequences of calls -/

/-- A call of one of the adapter's methods. -/
inductive Call where
  | Get (now : Time) (key : GoString)
  | GetWithContext (ctx : Context) (key : GoString)
  | List (now : Time) (key : GoString)
  | ListWithContext (ctx : Context) (key : GoString)
  | Set (now : Time) (key : GoString) (value : Bytes)
  | SetWithContext (ctx : Context) (key value : GoString)
  | Watch (key : GoString) (stop : Chan Bool) (receives : Nat)
  | WatchWithContext (ctx : Context) (key : GoString) (stop : Chan Bool) (receives : Nat)

/-- The receiver and the world after one call. -/
def Client.perform {σ : Type} (c : Client σ) (op : Call) (w : World σ) : Client σ × World σ :=
  match op with
  | .Get now key => ((c.Get now key w).self, (c.Get now key w).world)
  | .GetWithContext ctx key =>
    ((c.GetWithContext ctx key w).self, (c.GetWithContext ctx key w).world)
  | .List now key => ((c.List now key w).self, (c.List now key w).world)
  | .ListWithContext ctx key =>
    ((c.ListWithContext ctx key w).self, (c.ListWithContext ctx key w).world)
  | .Set now key value => ((c.Set now key value w).self, (c.Set now key value w).world)
  | .SetWithContext ctx key value =>
    ((c.SetWithContext ctx key value w).self, (c.SetWithContext ctx key value w).world)
  | .Watch key stop receives =>
    ((c.Watch key stop receives w).self, (c.Watch key stop receives w).world)
  | .WatchWithContext ctx key stop receives =>
    ((c.WatchWithContext ctx key stop receives w).self,
     (c.WatchWithContext ctx key stop receives w).world)

/-- A sequence of calls, first call first. -/
abbrev Calls := List Call

/-- The receiver and the world after a sequence of calls. -/
def Client.performAll {σ : Type} (c : Client σ) (ops : Calls) (w : World σ) :
    Client σ × World σ :=
  ops.foldl (fun s op => s.1.perform op s.2) (c, w)

/-! ## Conversions named in the statements -/

/-- The pair the adapter builds from one record. -/
def toPair (ev : KeyValue) : KVPair := { Key := ev.Key.toGoString, Value := ev.Value }

/-- The options of the read `ListWithContext` issues. -/
def listOpts : List OpOption :=
  [OpOption.WithPrefix, OpOption.WithSort SortTarget.SortByKey SortOrder.SortDescend]

/-- The response the forwarding goroutine builds from one event. -/
def toResponse (ev : Event) : Response := { Value := ev.Kv.Value, Error := none }

/-- The pair `ListWithContext` returns for an entry of the map store. -/
def entryPair (e : GoString × List Byte) : KVPair := { Key := e.1, Value := some e.2 }

/-! ## Concrete stores and data on which the adapter is run -/

/-- A store client that answers every call with fixed outcomes and keeps no state. -/
def cannedKV (g : Outcome GetResponse) (p : Outcome PutResponse) (ws : List WatchResponse) :
    KV Unit where
  Get := fun _ _ _ s => (g, s)
  Put := fun _ _ _ s => (p, s)
  Watch := fun _ _ _ s => (ws, s)

/-- A record with the given key and value and unit revisions. -/
def record (k v : List Byte) : KeyValue :=
  { Key := some k, CreateRevision := 1, ModRevision := 1, Version := 1, Value := some v,
    Lease := 0 }

/-- A successful read response carrying the given records. -/
def okGet (kvs : List KeyValue) : Outcome GetResponse :=
  .ok { Kvs := kvs, More := false, Count := kvs.length }

/-- A world with no requests issued yet. -/
def freshWorld {σ : Type} (s : σ) : World σ := { store := s, calls := [] }

/-- A client over a canned store. -/
def cannedClient (g : Outcome GetResponse) (p : Outcome PutResponse) (ws : List WatchResponse) :
    Client Unit :=
  { client := cannedKV g p ws, waitIndex := 0 }

/-- A put event for the given key and value. -/
def putEvent (k v : List Byte) : Event :=
  { Type_ := EventType.PUT, Kv := record k v, PrevKv := none }

/-- A delete event for the given key; the record of a deletion carries no value. -/
def deleteEvent (k : List Byte) : Event :=
  { Type_ := EventType.DELETE,
    Kv := { Key := some k, CreateRevision := 0, ModRevision := 2, Version := 0, Value := none,
            Lease := 0 },
    PrevKv := none }

/-- A notification carrying the given events. -/
def notify (events : List Event) : WatchResponse :=
  { Events := events, CompactRevision := 0, Canceled := false, Created := false,
    closeErr := none }

/-- A stop channel on which the caller never sends and which it never closes. -/
def silentStop : Chan Bool := { sent := [], closed := false }

/-- A stop channel on which the caller sends `true` once. -/
def firedStop : Chan Bool := { sent := [true], closed := false }

/-- A notification that reports the end of the watch with an error and no events. -/
def canceledNotice : WatchResponse :=
  { Events := [], CompactRevision := 0, Canceled := true, Created := false,
    closeErr := some ⟨"etcdserver: mvcc: required revision has been compacted"⟩ }

/-- A map with the keys `a`, `ab`, `abc` and `b`, in no particular order. -/
def sampleMap : MapStore :=
  { kvs := [([97, 98], [2]), ([98], [4]), ([97], [1]), ([97, 98, 99], [3, 255])] }

/-! ## Conversion lemmas -/

theorem foldl_append_pairs (kvs : List KeyValue) (acc : KVList) :
    kvs.foldl (fun (list : KVList) ev => list ++ [{ Key := ev.Key.toGoString, Value := ev.Value }])
      acc = acc ++ kvs.map toPair := by
  induction kvs generalizing acc with
  | nil => simp
  | cons kv rest ih => simp [List.foldl_cons, ih, toPair]

/-! ## Get -/

/-- C1: `GetWithContext` issues one exact-key read (no options) and converts the
store's outcome: an error `e` gives `(nil, e)`; a response with a first record
gives that record's value bytes unchanged and a nil error; a response without
records gives `(nil, nil)`.  `Get` returns what `GetWithContext` returns for the
same key whenever the store answers the two reads alike, in particular under the
context `Get` itself builds. -/
theorem getWithContext_converts_outcome {σ : Type} (c : Client σ) (ctx : Context)
    (key : GoString) (w : World σ) :
    (c.GetWithContext ctx key w).world.calls = w.calls ++ [Request.get ctx key []] ∧
    (∀ e, (c.client.Get ctx key [] w.store).1 = .error e →
      (c.GetWithContext ctx key w).ret = (none, some e)) ∧
    (∀ resp kv rest, (c.client.Get ctx key [] w.store).1 = .ok resp → resp.Kvs = kv :: rest →
      (c.GetWithContext ctx key w).ret = (kv.Value, none)) ∧
    (∀ resp, (c.client.Get ctx key [] w.store).1 = .ok resp → resp.Kvs = [] →
      (c.GetWithContext ctx key w).ret = (none, none)) ∧
    (∀ now, (c.client.Get (WithTimeout Context.todo EtcdTimeout now) key [] w.store).1
        = (c.client.Get ctx key [] w.store).1 →
      (c.Get now key w).ret = (c.GetWithContext ctx key w).ret) ∧
    (∀ now, c.Get now key w = c.GetWithContext (WithTimeout Context.todo EtcdTimeout now) key w) := by
  refine ⟨?_, ?_, ?_, ?_, ?_, ?_⟩
  · unfold Client.GetWithContext callGet
    dsimp only
    split
    · rfl
    · split <;> rfl
  · intro e he
    unfold Client.GetWithContext callGet
    simp only [he]
  · intro resp kv rest hr hk
    unfold Client.GetWithContext callGet
    simp only [hr]
    simp [hk]
  · intro resp hr hk
    unfold Client.GetWithContext callGet
    simp only [hr]
    simp [hk]
  · intro now h
    unfold Client.Get Client.GetWithContext callGet
    simp only [h]
    cases (c.client.Get ctx key [] w.store).1 with
    | error e => rfl
    | ok resp =>
      dsimp only
      split <;> rfl
  · intro now
    rfl

/-- C1 on concrete stores: a failing read, a read returning two records, and a
read returning none. -/
theorem getWithContext_converts_outcome_witness :
    (Client.GetWithContext (cannedClient (.error ⟨"unavailable"⟩) (.ok ⟨none⟩) []) Context.todo
        [107] (freshWorld ())).ret = (none, some ⟨"unavailable"⟩) ∧
    (Client.GetWithContext
        (cannedClient (okGet [record [107] [1, 255], record [107, 50] [9]]) (.ok ⟨none⟩) [])
        Context.todo [107] (freshWorld ())).ret = (some [1, 255], none) ∧
    (Client.GetWithContext (cannedClient (okGet []) (.ok ⟨none⟩) []) Context.todo
        [107] (freshWorld ())).ret = (none, none) ∧
    (Client.Get (cannedClient (okGet [record [107] [1, 255]]) (.ok ⟨none⟩) []) 42
        [107] (freshWorld ())).ret
      = (Client.GetWithContext (cannedClient (okGet [record [107] [1, 255]]) (.ok ⟨none⟩) [])
          Context.background [107] (freshWorld ())).ret :=
  ⟨(getWithContext_converts_outcome _ Context.todo [107] (freshWorld ())).2.1 _ rfl,
   (getWithContext_converts_outcome _ Context.todo [107] (freshWorld ())).2.2.1 _ _ _ rfl rfl,
   (getWithContext_converts_outcome _ Context.todo [107] (freshWorld ())).2.2.2.1 _ rfl rfl,
   (getWithContext_converts_outcome _ Context.background [107] (freshWorld ())).2.2.2.2.1 42 rfl⟩

/-! ## List -/

/-- C2: `ListWithContext` issues one read and translates the records one for one:
a failed read with error `e` gives `(nil, e)`; a response with no records gives
`(nil, nil)`; a response with `n ≥ 1` records gives a non-nil list of exactly `n`
pairs whose `i`-th pair has the key of record `i` as a string and the value bytes
of record `i` unchanged. -/
theorem listWithContext_translates_records {σ : Type} (c : Client σ) (ctx : Context)
    (key : GoString) (w : World σ) :
    (∀ e, (c.client.Get ctx key [OpOption.WithPrefix,
          OpOption.WithSort SortTarget.SortByKey SortOrder.SortDescend] w.store).1 = .error e →
      (c.ListWithContext ctx key w).ret = (none, some e)) ∧
    (∀ resp, (c.client.Get ctx key [OpOption.WithPrefix,
          OpOption.WithSort SortTarget.SortByKey SortOrder.SortDescend] w.store).1 = .ok resp →
      resp.Kvs.length = 0 →
      (c.ListWithContext ctx key w).ret = (none, none)) ∧
    (∀ resp, (c.client.Get ctx key [OpOption.WithPrefix,
          OpOption.WithSort SortTarget.SortByKey SortOrder.SortDescend] w.store).1 = .ok resp →
      1 ≤ resp.Kvs.length →
      ∃ list : KVList, (c.ListWithContext ctx key w).ret = (some list, none) ∧
        list.length = resp.Kvs.length ∧
        ∀ (i : Nat) (h : i < resp.Kvs.length),
          list[i]? = some { Key := (resp.Kvs.get ⟨i, h⟩).Key.toGoString,
                            Value := (resp.Kvs.get ⟨i, h⟩).Value }) := by
  refine ⟨?_, ?_, ?_⟩
  · intro e he
    unfold Client.ListWithContext callGet
    simp only [he]
  · intro resp hr hk
    unfold Client.ListWithContext callGet
    simp only [hr]
    simp [hk]
  · intro resp hr hk
    refine ⟨resp.Kvs.map toPair, ?_, by simp, ?_⟩
    · unfold Client.ListWithContext callGet
      simp only [hr]
      have hne : ¬ resp.Kvs.length = 0 := by omega
      simp only [hne, if_false, foldl_append_pairs, List.nil_append]
    · intro i h
      simp [List.getElem?_map, List.getElem?_eq_getElem h, toPair]

/-- C2 on concrete stores: a failing read, an empty response, and a response with
two records in the store's order. -/
theorem listWithContext_translates_records_witness :
    (Client.ListWithContext (cannedClient (.error ⟨"unavailable"⟩) (.ok ⟨none⟩) [])
        Context.todo [107] (freshWorld ())).ret = (none, some ⟨"unavailable"⟩) ∧
    (Client.ListWithContext (cannedClient (okGet []) (.ok ⟨none⟩) [])
        Context.todo [107] (freshWorld ())).ret = (none, none) ∧
    (∃ list : KVList,
      (Client.ListWithContext
          (cannedClient (okGet [record [107, 50] [9], record [107] [1, 255]]) (.ok ⟨none⟩) [])
          Context.todo [107] (freshWorld ())).ret = (some list, none) ∧
        list.length = 2 ∧
        ∀ (i : Nat) (h : i < 2),
          list[i]? = some
            { Key := (([record [107, 50] [9], record [107] [1, 255]] : List KeyValue).get
                ⟨i, h⟩).Key.toGoString,
              Value := (([record [107, 50] [9], record [107] [1, 255]] : List KeyValue).get
                ⟨i, h⟩).Value }) :=
  ⟨(listWithContext_translates_records _ Context.todo [107] (freshWorld ())).1 _ rfl,
   (listWithContext_translates_records _ Context.todo [107] (freshWorld ())).2.1 _ rfl rfl,
   (listWithContext_translates_records _ Context.todo [107] (freshWorld ())).2.2
     { Kvs := [record [107, 50] [9], record [107] [1, 255]], More := false, Count := 2 } rfl
     (by decide)⟩

/-! ## Contexts handed to the store -/

/-- C3, as stated, fails for `Watch`: the one request `Watch` issues is made under
a context without any deadline, so under no deadline of the form
`now + EtcdTimeout`. -/
theorem watch_deadline_counterexample :
    (Client.Watch (cannedClient (okGet []) (.ok ⟨none⟩) []) [107] silentStop 0
        (freshWorld ())).world.calls
      = [Request.watch (Context.withCancel Context.background) [107] [OpOption.WithPrefix]] ∧
    ¬ ∃ now : Time,
      (Client.Watch (cannedClient (okGet []) (.ok ⟨none⟩) []) [107] silentStop 0
          (freshWorld ())).world.calls.map (fun r => r.ctx.Deadline)
        = [some (now + EtcdTimeout)] := by
  refine ⟨rfl, ?_⟩
  rintro ⟨now, h⟩
  exact absurd h (by simp [Client.Watch, Client.WatchWithContext, callWatch, freshWorld,
    WithCancel, Request.ctx, Context.Deadline])

/-- C3, amended: `Get`, `List` and `Set` hand the store a context whose deadline is
`EtcdTimeout` (five seconds) after the instant of the call; `Watch` hands it a
cancellable context derived from `context.Background()`, which has no deadline. -/
theorem timeout_wrapper_contexts {σ : Type} (c : Client σ) (now : Time) (key : GoString)
    (value : Bytes) (stop : Chan Bool) (receives : Nat) (w : World σ) :
    EtcdTimeout = 5000000000 ∧
    (WithTimeout Context.todo EtcdTimeout now).Deadline = some (now + EtcdTimeout) ∧
    (c.Get now key w).world.calls
      = w.calls ++ [Request.get (WithTimeout Context.todo EtcdTimeout now) key []] ∧
    (c.List now key w).world.calls
      = w.calls ++ [Request.get (WithTimeout Context.todo EtcdTimeout now) key listOpts] ∧
    (c.Set now key value w).world.calls
      = w.calls ++ [Request.put (WithTimeout Context.todo EtcdTimeout now) key
          value.toGoString] ∧
    (c.Watch key stop receives w).world.calls
      = w.calls ++ [Request.watch (WithCancel Context.background) key [OpOption.WithPrefix]] ∧
    (WithCancel Context.background).Deadline = none := by
  refine ⟨by decide, rfl, ?_, ?_, ?_, rfl, rfl⟩
  · unfold Client.Get Client.GetWithContext callGet
    dsimp only
    split
    · rfl
    · split <;> rfl
  · unfold Client.List Client.ListWithContext callGet
    dsimp only
    split
    · rfl
    · split <;> rfl
  · unfold Client.Set Client.SetWithContext callPut
    dsimp only
    split <;> rfl

/-! ## Watch -/

theorem send_closed (receives : Nat) (ch : Chan Response) (r : Response) :
    (send receives ch r).closed = ch.closed := by
  unfold send
  split <;> rfl

theorem foldl_send_sent (receives : Nat) (ch : Chan Response) (rs : List Response) :
    (rs.foldl (send receives) ch).sent = ch.sent ++ rs.take (receives - ch.sent.length) := by
  induction rs generalizing ch with
  | nil => simp
  | cons r rest ih =>
    rw [List.foldl_cons, ih]
    unfold send
    split
    · have h : receives - ch.sent.length = (receives - (ch.sent.length + 1)) + 1 := by omega
      rw [h, List.take_succ_cons]
      simp
    · have h : receives - ch.sent.length = 0 := by omega
      simp [h]

theorem foldl_send_closed (receives : Nat) (ch : Chan Response) (rs : List Response) :
    (rs.foldl (send receives) ch).closed = ch.closed := by
  induction rs generalizing ch with
  | nil => rfl
  | cons r rest ih => rw [List.foldl_cons, ih, send_closed]

theorem forwardEvents_eq (receives : Nat) (ch : Chan Response) (events : List Event) :
    forwardEvents receives ch events = (events.map toResponse).foldl (send receives) ch := by
  unfold forwardEvents
  rw [List.foldl_map]
  rfl

theorem forwardAll_eq (receives : Nat) (ch : Chan Response) (rch : List WatchResponse) :
    forwardAll receives ch rch
      = ((rch.flatMap fun wresp => wresp.Events).map toResponse).foldl (send receives) ch := by
  unfold forwardAll
  induction rch generalizing ch with
  | nil => rfl
  | cons wresp rest ih =>
    rw [List.foldl_cons, ih, forwardEvents_eq, List.flatMap_cons, List.map_append,
      List.foldl_append]

theorem forwardAll_sent (receives : Nat) (ch : Chan Response) (rch : List WatchResponse) :
    (forwardAll receives ch rch).sent
      = ch.sent ++ ((rch.flatMap fun wresp => wresp.Events).map toResponse).take
          (receives - ch.sent.length) := by
  rw [forwardAll_eq, foldl_send_sent]

theorem forwardAll_closed (receives : Nat) (ch : Chan Response) (rch : List WatchResponse) :
    (forwardAll receives ch rch).closed = ch.closed := by
  rw [forwardAll_eq, foldl_send_closed]

theorem chan_ext {α : Type} (a b : Chan α) (h₁ : a.sent = b.sent) (h₂ : a.closed = b.closed) :
    a = b := by
  cases a
  cases b
  simp_all

theorem watchWithContext_sent {σ : Type} (c : Client σ) (ctx : Context) (key : GoString)
    (stop : Chan Bool) (receives : Nat) (w : World σ) :
    (c.WatchWithContext ctx key stop receives w).ret.sent
      = (((c.client.Watch (WithCancel ctx) key [OpOption.WithPrefix] w.store).1.flatMap
          fun wresp => wresp.Events).map toResponse).take receives := by
  simp [Client.WatchWithContext, callWatch, forwardAll_sent]

/-- C4, as stated, fails when the consumer stops receiving: the store delivers one
notification with a put and a delete event, the consumer takes one response,
signals stop and leaves; the second send never completes, so the responses sent
are not the whole concatenation and their number is not the number of events. -/
theorem watchWithContext_forwards_stream_counterexample :
    (Client.WatchWithContext
        (cannedClient (okGet []) (.ok ⟨none⟩)
          [notify [putEvent [107] [1], deleteEvent [107, 50]]])
        Context.background [107] firedStop 1 (freshWorld ())).ret.sent
      = [{ Value := some [1], Error := none }] ∧
    (Client.WatchWithContext
        (cannedClient (okGet []) (.ok ⟨none⟩)
          [notify [putEvent [107] [1], deleteEvent [107, 50]]])
        Context.background [107] firedStop 1 (freshWorld ())).ret.sent
      ≠ (([notify [putEvent [107] [1], deleteEvent [107, 50]]].flatMap
          fun wresp => wresp.Events).map
        (fun ev => ({ Value := ev.Kv.Value, Error := none } : Response))) ∧
    (Client.WatchWithContext
        (cannedClient (okGet []) (.ok ⟨none⟩)
          [notify [putEvent [107] [1], deleteEvent [107, 50]]])
        Context.background [107] firedStop 1 (freshWorld ())).ret.sent.length
      ≠ (([notify [putEvent [107] [1], deleteEvent [107, 50]]].map
          fun wresp => wresp.Events.length).sum) := by
  refine ⟨by decide, by decide, by decide⟩

/-- C4, amended: with a consumer that receives `receives` responses, the responses
`WatchWithContext` sends are the first `receives` of the events of the
notifications the store's prefix watch delivers, concatenated in arrival order,
each mapped to a response holding the event's record value, so nothing is
duplicated or reordered and their number is the smaller of `receives` and the
number of events; when the consumer receives at least as many responses as there
are events, the responses sent are the whole concatenation, their number is the
total number of events, and an event of either type, put or delete, is
forwarded. -/
theorem watchWithContext_forwards_stream {σ : Type} (c : Client σ) (ctx : Context)
    (key : GoString) (stop : Chan Bool) (receives : Nat) (w : World σ) :
    (c.WatchWithContext ctx key stop receives w).world.calls
      = w.calls ++ [Request.watch (WithCancel ctx) key [OpOption.WithPrefix]] ∧
    (c.WatchWithContext ctx key stop receives w).ret.sent
      = (((c.client.Watch (WithCancel ctx) key [OpOption.WithPrefix] w.store).1.flatMap
          fun wresp => wresp.Events).map
        (fun ev => ({ Value := ev.Kv.Value, Error := none } : Response))).take receives ∧
    (c.WatchWithContext ctx key stop receives w).ret.sent.length
      = min receives
          ((c.client.Watch (WithCancel ctx) key [OpOption.WithPrefix] w.store).1.map
            fun wresp => wresp.Events.length).sum ∧
    (((c.client.Watch (WithCancel ctx) key [OpOption.WithPrefix] w.store).1.map
        fun wresp => wresp.Events.length).sum ≤ receives →
      (c.WatchWithContext ctx key stop receives w).ret.sent
        = ((c.client.Watch (WithCancel ctx) key [OpOption.WithPrefix] w.store).1.flatMap
            fun wresp => wresp.Events).map
          (fun ev => ({ Value := ev.Kv.Value, Error := none } : Response)) ∧
      (c.WatchWithContext ctx key stop receives w).ret.sent.length
        = ((c.client.Watch (WithCancel ctx) key [OpOption.WithPrefix] w.store).1.map
            fun wresp => wresp.Events.length).sum ∧
      ∀ wresp ∈ (c.client.Watch (WithCancel ctx) key [OpOption.WithPrefix] w.store).1,
        ∀ ev ∈ wresp.Events, ∀ t : EventType, ev.Type_ = t →
          ({ Value := ev.Kv.Value, Error := none } : Response)
            ∈ (c.WatchWithContext ctx key stop receives w).ret.sent) := by
  have hs := watchWithContext_sent c ctx key stop receives w
  have hlen : (((c.client.Watch (WithCancel ctx) key [OpOption.WithPrefix] w.store).1.flatMap
      fun wresp => wresp.Events).map toResponse).length
      = ((c.client.Watch (WithCancel ctx) key [OpOption.WithPrefix] w.store).1.map
          fun wresp => wresp.Events.length).sum := by
    rw [List.length_map, List.flatMap, List.length_flatten, List.map_map]
    rfl
  refine ⟨rfl, hs, ?_, ?_⟩
  · rw [hs, List.length_take, hlen]
  · intro hall
    have hfull : (c.WatchWithContext ctx key stop receives w).ret.sent
        = ((c.client.Watch (WithCancel ctx) key [OpOption.WithPrefix] w.store).1.flatMap
            fun wresp => wresp.Events).map toResponse := by
      rw [hs]
      exact List.take_of_length_le (by rw [hlen]; exact hall)
    refine ⟨hfull, ?_, ?_⟩
    · rw [hfull, hlen]
    · intro wresp hw ev he t _
      rw [hfull]
      exact List.mem_map.2 ⟨ev, List.mem_flatMap.2 ⟨wresp, hw, he⟩, rfl⟩

/-- C4, amended, on a concrete stream: two notifications with two and one events
and a consumer that receives five responses; all three events are forwarded, the
delete event among them. -/
theorem watchWithContext_forwards_stream_witness :
    (Client.WatchWithContext
        (cannedClient (okGet []) (.ok ⟨none⟩)
          [notify [putEvent [107] [1], deleteEvent [107, 50]], notify [putEvent [107] [2]]])
        Context.background [107] silentStop 5 (freshWorld ())).ret.sent.length
      = ([notify [putEvent [107] [1], deleteEvent [107, 50]], notify [putEvent [107] [2]]].map
          fun wresp => wresp.Events.length).sum ∧
    ({ Value := none, Error := none } : Response)
      ∈ (Client.WatchWithContext
          (cannedClient (okGet []) (.ok ⟨none⟩)
            [notify [putEvent [107] [1], deleteEvent [107, 50]], notify [putEvent [107] [2]]])
          Context.background [107] silentStop 5 (freshWorld ())).ret.sent :=
  ⟨((watchWithContext_forwards_stream
      (cannedClient (okGet []) (.ok ⟨none⟩)
        [notify [putEvent [107] [1], deleteEvent [107, 50]], notify [putEvent [107] [2]]])
      Context.background [107] silentStop 5 (freshWorld ())).2.2.2 (by decide)).2.1,
   ((watchWithContext_forwards_stream
      (cannedClient (okGet []) (.ok ⟨none⟩)
        [notify [putEvent [107] [1], deleteEvent [107, 50]], notify [putEvent [107] [2]]])
      Context.background [107] silentStop 5 (freshWorld ())).2.2.2 (by decide)).2.2
    (notify [putEvent [107] [1], deleteEvent [107, 50]]) (by simp [cannedClient, cannedKV])
    (deleteEvent [107, 50]) (by simp [notify]) EventType.DELETE rfl⟩

/-- C10: every response `WatchWithContext` sends has a nil `Error`, the output
channel is never closed, a notification without events (whatever error or
cancellation it carries) adds no response, and the output depends on the
notifications through their events only, so a failed or ended watch cannot be
told from a quiet one. -/
theorem watchWithContext_reports_no_error {σ : Type} (c : Client σ) (ctx : Context)
    (key : GoString) (stop : Chan Bool) (receives : Nat) (w : World σ) :
    (∀ r ∈ (c.WatchWithContext ctx key stop receives w).ret.sent, r.Error = none) ∧
    (c.WatchWithContext ctx key stop receives w).ret.closed = false ∧
    (∀ (ch : Chan Response) (before after : List WatchResponse) (wresp : WatchResponse),
      wresp.Events = [] →
      forwardAll receives ch (before ++ wresp :: after)
        = forwardAll receives ch (before ++ after)) ∧
    (∀ (ch : Chan Response) (rch rch' : List WatchResponse),
      rch.map (fun wresp => wresp.Events) = rch'.map (fun wresp => wresp.Events) →
      forwardAll receives ch rch = forwardAll receives ch rch') := by
  refine ⟨?_, ?_, ?_, ?_⟩
  · intro r hr
    rw [watchWithContext_sent] at hr
    obtain ⟨ev, _, rfl⟩ := List.mem_map.1 (List.mem_of_mem_take hr)
    rfl
  · simp [Client.WatchWithContext, forwardAll_closed]
  · intro ch before after wresp hw
    apply chan_ext
    · simp [forwardAll_sent, List.flatMap_append, List.flatMap_cons, hw]
    · simp [forwardAll_closed]
  · intro ch rch rch' h
    apply chan_ext
    · have hf : ∀ l : List WatchResponse,
          (l.flatMap fun wresp => wresp.Events) = (l.map fun wresp => wresp.Events).flatten := by
        intro l
        rfl
      simp [forwardAll_sent, hf, h]
    · simp [forwardAll_closed]

/-- C10 on a concrete stream: a notification that reports cancellation with an
error and carries no events leaves no trace in the output. -/
theorem watchWithContext_reports_no_error_witness :
    forwardAll 3 { sent := [], closed := false }
        ([notify [putEvent [107] [1]]] ++ canceledNotice :: [])
      = forwardAll 3 { sent := [], closed := false } ([notify [putEvent [107] [1]]] ++ []) :=
  (watchWithContext_reports_no_error (cannedClient (okGet []) (.ok ⟨none⟩) [])
      Context.background [107] firedStop 3 (freshWorld ())).2.2.1
    { sent := [], closed := false } [notify [putEvent [107] [1]]] [] canceledNotice rfl

/-! ## One request per call -/

theorem getWithContext_world {σ : Type} (c : Client σ) (ctx : Context) (key : GoString)
    (w : World σ) :
    (c.GetWithContext ctx key w).world = (callGet c.client ctx key [] w).2 := by
  unfold Client.GetWithContext
  dsimp only
  split
  · rfl
  · split <;> rfl

theorem listWithContext_world {σ : Type} (c : Client σ) (ctx : Context) (key : GoString)
    (w : World σ) :
    (c.ListWithContext ctx key w).world = (callGet c.client ctx key listOpts w).2 := by
  unfold Client.ListWithContext
  dsimp only
  split
  · rfl
  · split <;> rfl

theorem setWithContext_world {σ : Type} (c : Client σ) (ctx : Context) (key value : GoString)
    (w : World σ) :
    (c.SetWithContext ctx key value w).world = (callPut c.client ctx key value w).2 := by
  unfold Client.SetWithContext
  dsimp only
  split <;> rfl

/-- C6: `GetWithContext`, `ListWithContext` and `SetWithContext`, and `Get`,
`List` and `Set`, each add exactly one request to those issued to the store,
whatever its outcome; when that request fails with `e` the operation returns `e`
itself and no data; `SetWithContext` and `Set` return a nil error exactly when
the put succeeded. -/
theorem one_request_no_retry {σ : Type} (c : Client σ) (ctx : Context) (now : Time)
    (key value : GoString) (bytes : Bytes) (w : World σ) :
    ((c.GetWithContext ctx key w).world.calls = w.calls ++ [Request.get ctx key []] ∧
     (c.ListWithContext ctx key w).world.calls = w.calls ++ [Request.get ctx key listOpts] ∧
     (c.SetWithContext ctx key value w).world.calls
       = w.calls ++ [Request.put ctx key value]) ∧
    ((c.Get now key w).world.calls.length = w.calls.length + 1 ∧
     (c.List now key w).world.calls.length = w.calls.length + 1 ∧
     (c.Set now key bytes w).world.calls.length = w.calls.length + 1) ∧
    (∀ e, (c.client.Get ctx key [] w.store).1 = .error e →
      (c.GetWithContext ctx key w).ret = (none, some e)) ∧
    (∀ e, (c.client.Get ctx key listOpts w.store).1 = .error e →
      (c.ListWithContext ctx key w).ret = (none, some e)) ∧
    (∀ e, (c.client.Put ctx key value w.store).1 = .error e →
      (c.SetWithContext ctx key value w).ret = some e) ∧
    ((c.SetWithContext ctx key value w).ret = none ↔
      ∃ resp, (c.client.Put ctx key value w.store).1 = .ok resp) ∧
    (∀ e, (c.client.Get (WithTimeout Context.todo EtcdTimeout now) key [] w.store).1 = .error e →
      (c.Get now key w).ret = (none, some e)) ∧
    (∀ e, (c.client.Get (WithTimeout Context.todo EtcdTimeout now) key listOpts w.store).1
        = .error e →
      (c.List now key w).ret = (none, some e)) ∧
    (∀ e, (c.client.Put (WithTimeout Context.todo EtcdTimeout now) key bytes.toGoString
        w.store).1 = .error e →
      (c.Set now key bytes w).ret = some e) ∧
    ((c.Set now key bytes w).ret = none ↔
      ∃ resp, (c.client.Put (WithTimeout Context.todo EtcdTimeout now) key bytes.toGoString
        w.store).1 = .ok resp) := by
  have hget : ∀ ctx e, (c.client.Get ctx key [] w.store).1 = .error e →
      (c.GetWithContext ctx key w).ret = (none, some e) := by
    intro ctx e he
    unfold Client.GetWithContext callGet
    simp only [he]
  have hlist : ∀ ctx e, (c.client.Get ctx key listOpts w.store).1 = .error e →
      (c.ListWithContext ctx key w).ret = (none, some e) := by
    intro ctx e he
    unfold Client.ListWithContext callGet
    simp only [listOpts] at he
    simp only [he]
  have hset : ∀ ctx value e, (c.client.Put ctx key value w.store).1 = .error e →
      (c.SetWithContext ctx key value w).ret = some e := by
    intro ctx value e he
    unfold Client.SetWithContext callPut
    simp only [he]
  have hiff : ∀ ctx value, (c.SetWithContext ctx key value w).ret = none ↔
      ∃ resp, (c.client.Put ctx key value w.store).1 = .ok resp := by
    intro ctx value
    unfold Client.SetWithContext callPut
    cases hp : (c.client.Put ctx key value w.store).1 with
    | error e => simp [hp]
    | ok resp => simp [hp]
  refine ⟨⟨?_, ?_, ?_⟩, ⟨?_, ?_, ?_⟩, hget ctx, hlist ctx, hset ctx value, hiff ctx value,
    hget _, hlist _, hset _ _, hiff _ _⟩
  · rw [getWithContext_world]; rfl
  · rw [listWithContext_world]; rfl
  · rw [setWithContext_world]; rfl
  · unfold Client.Get
    rw [getWithContext_world]
    simp [callGet]
  · unfold Client.List
    rw [listWithContext_world]
    simp [callGet]
  · unfold Client.Set
    rw [setWithContext_world]
    simp [callPut]

/-- C6 on concrete stores: a failing read and a failing put each hand their error
back unchanged. -/
theorem one_request_no_retry_witness :
    (Client.GetWithContext (cannedClient (.error ⟨"context deadline exceeded"⟩) (.ok ⟨none⟩) [])
        Context.todo [107] (freshWorld ())).ret = (none, some ⟨"context deadline exceeded"⟩) ∧
    (Client.ListWithContext (cannedClient (.error ⟨"context deadline exceeded"⟩) (.ok ⟨none⟩) [])
        Context.todo [107] (freshWorld ())).ret = (none, some ⟨"context deadline exceeded"⟩) ∧
    (Client.SetWithContext (cannedClient (okGet []) (.error ⟨"context deadline exceeded"⟩) [])
        Context.todo [107] [1] (freshWorld ())).ret = some ⟨"context deadline exceeded"⟩ :=
  ⟨(one_request_no_retry _ Context.todo 0 [107] [1] none (freshWorld ())).2.2.1 _ rfl,
   (one_request_no_retry _ Context.todo 0 [107] [1] none (freshWorld ())).2.2.2.1 _ rfl,
   (one_request_no_retry _ Context.todo 0 [107] [1] none (freshWorld ())).2.2.2.2.1 _ rfl⟩

/-! ## No state of the adapter's own -/

theorem getWithContext_self {σ : Type} (c : Client σ) (ctx : Context) (key : GoString)
    (w : World σ) : (c.GetWithContext ctx key w).self = c := by
  unfold Client.GetWithContext
  dsimp only
  split
  · rfl
  · split <;> rfl

theorem listWithContext_self {σ : Type} (c : Client σ) (ctx : Context) (key : GoString)
    (w : World σ) : (c.ListWithContext ctx key w).self = c := by
  unfold Client.ListWithContext
  dsimp only
  split
  · rfl
  · split <;> rfl

theorem setWithContext_self {σ : Type} (c : Client σ) (ctx : Context) (key value : GoString)
    (w : World σ) : (c.SetWithContext ctx key value w).self = c := by
  unfold Client.SetWithContext
  dsimp only
  split <;> rfl

theorem perform_self {σ : Type} (c : Client σ) (op : Call) (w : World σ) :
    (c.perform op w).1 = c := by
  cases op with
  | Get now key => exact getWithContext_self c _ key w
  | GetWithContext ctx key => exact getWithContext_self c ctx key w
  | List now key => exact listWithContext_self c _ key w
  | ListWithContext ctx key => exact listWithContext_self c ctx key w
  | Set now key value => exact setWithContext_self c _ key _ w
  | SetWithContext ctx key value => exact setWithContext_self c ctx key value w
  | Watch key stop receives => rfl
  | WatchWithContext ctx key stop receives => rfl

theorem performAll_self {σ : Type} (c : Client σ) (ops : List Call) (w : World σ) :
    (c.performAll ops w).1 = c := by
  unfold Client.performAll
  induction ops generalizing w with
  | nil => rfl
  | cons op rest ih =>
    rw [List.foldl_cons]
    have h : c.perform op w = (c, (c.perform op w).2) :=
      Prod.ext (perform_self c op w) rfl
    rw [h]
    exact ih _

theorem getWithContext_ret_of_outcome {σ τ : Type} (c : Client σ) (c' : Client τ)
    (ctx ctx' : Context) (key key' : GoString) (w : World σ) (w' : World τ)
    (h : (c.client.Get ctx key [] w.store).1 = (c'.client.Get ctx' key' [] w'.store).1) :
    (c.GetWithContext ctx key w).ret = (c'.GetWithContext ctx' key' w').ret := by
  unfold Client.GetWithContext callGet
  simp only [h]
  cases (c'.client.Get ctx' key' [] w'.store).1 with
  | error e => rfl
  | ok resp =>
    dsimp only
    split <;> rfl

theorem listWithContext_ret_of_outcome {σ τ : Type} (c : Client σ) (c' : Client τ)
    (ctx ctx' : Context) (key key' : GoString) (w : World σ) (w' : World τ)
    (h : (c.client.Get ctx key listOpts w.store).1
      = (c'.client.Get ctx' key' listOpts w'.store).1) :
    (c.ListWithContext ctx key w).ret = (c'.ListWithContext ctx' key' w').ret := by
  unfold Client.ListWithContext callGet
  simp only [listOpts] at h
  simp only [h]
  cases (c'.client.Get ctx' key' [OpOption.WithPrefix,
      OpOption.WithSort SortTarget.SortByKey SortOrder.SortDescend] w'.store).1 with
  | error e => rfl
  | ok resp =>
    dsimp only
    split <;> rfl

/-- C7: a client made by `New` has `waitIndex` 0; no sequence of calls of the eight
methods changes the receiver, so `waitIndex` stays 0 and the client handle stays
the one `New` stored; no method's outcome depends on `waitIndex`; and the results
of `GetWithContext` and `ListWithContext` are determined by the store's response
to their one read: two calls that receive the same response return the same
result, whatever calls came before either. -/
theorem adapter_keeps_no_state {σ : Type} (dial : List GoString → Outcome (KV σ))
    (machines : List GoString) (c : Client σ) (hnew : New dial machines = .ok c) :
    c.waitIndex = 0 ∧ dial machines = .ok c.client ∧
    (∀ (ops : List Call) (w : World σ),
      (c.performAll ops w).1 = c ∧ (c.performAll ops w).1.waitIndex = 0) ∧
    (∀ (n : Nat) (ctx : Context) (key value : GoString) (stop : Chan Bool) (receives : Nat)
        (w : World σ),
      ({ c with waitIndex := n }.GetWithContext ctx key w).ret = (c.GetWithContext ctx key w).ret ∧
      ({ c with waitIndex := n }.ListWithContext ctx key w).ret
        = (c.ListWithContext ctx key w).ret ∧
      ({ c with waitIndex := n }.SetWithContext ctx key value w).ret
        = (c.SetWithContext ctx key value w).ret ∧
      ({ c with waitIndex := n }.WatchWithContext ctx key stop receives w).ret
        = (c.WatchWithContext ctx key stop receives w).ret) ∧
    (∀ (n : Nat) (op : Call) (w : World σ),
      ({ c with waitIndex := n }.perform op w).2 = (c.perform op w).2) ∧
    (∀ (before before' : List Call) (ctx ctx' : Context) (key : GoString) (w w' : World σ),
      (c.client.Get ctx key [] (c.performAll before w).2.store).1
        = (c.client.Get ctx' key [] (c.performAll before' w').2.store).1 →
      (c.GetWithContext ctx key (c.performAll before w).2).ret
        = (c.GetWithContext ctx' key (c.performAll before' w').2).ret) ∧
    (∀ (before before' : List Call) (ctx ctx' : Context) (key : GoString) (w w' : World σ),
      (c.client.Get ctx key listOpts (c.performAll before w).2.store).1
        = (c.client.Get ctx' key listOpts (c.performAll before' w').2.store).1 →
      (c.ListWithContext ctx key (c.performAll before w).2).ret
        = (c.ListWithContext ctx' key (c.performAll before' w').2).ret) := by
  have hc : c.waitIndex = 0 ∧ dial machines = .ok c.client := by
    unfold New at hnew
    cases hd : dial machines with
    | error e => simp [hd] at hnew
    | ok kv =>
      simp only [hd, Except.ok.injEq] at hnew
      subst hnew
      exact ⟨rfl, rfl⟩
  refine ⟨hc.1, hc.2, ?_, ?_, ?_, ?_, ?_⟩
  · intro ops w
    rw [performAll_self]
    exact ⟨rfl, hc.1⟩
  · intro n ctx key value stop receives w
    refine ⟨getWithContext_ret_of_outcome _ _ _ _ _ _ _ _ rfl,
      listWithContext_ret_of_outcome _ _ _ _ _ _ _ _ rfl, ?_, rfl⟩
    unfold Client.SetWithContext callPut
    dsimp only
    split <;> rfl
  · intro n op w
    cases op <;>
      simp only [Client.perform, Client.Get, Client.List, Client.Set, getWithContext_world,
        listWithContext_world, setWithContext_world] <;>
      rfl
  · intro before before' ctx ctx' key w w' h
    exact getWithContext_ret_of_outcome _ _ _ _ _ _ _ _ h
  · intro before before' ctx ctx' key w w' h
    exact listWithContext_ret_of_outcome _ _ _ _ _ _ _ _ h

/-- C7 on a concrete client: after a `Set`, a `Watch` and a `Get` the client made
by `New` is the one `New` returned. -/
theorem adapter_keeps_no_state_witness :
    (Client.performAll (cannedClient (okGet [record [107] [1]]) (.ok ⟨none⟩) [])
        [Call.Set 0 [107] (some [1]), Call.Watch [107] firedStop 1, Call.Get 7 [107]] (freshWorld ())).1
      = cannedClient (okGet [record [107] [1]]) (.ok ⟨none⟩) [] :=
  ((adapter_keeps_no_state (fun _ => .ok (cannedKV (okGet [record [107] [1]]) (.ok ⟨none⟩) []))
      [[49, 50, 55]] (cannedClient (okGet [record [107] [1]]) (.ok ⟨none⟩) []) rfl).2.2.1
    [Call.Set 0 [107] (some [1]), Call.Watch [107] firedStop 1, Call.Get 7 [107]] (freshWorld ())).1

/-! ## Order on keys -/

theorem keyLE_total (a b : GoString) : keyLE a b = true ∨ keyLE b a = true := by
  induction a generalizing b with
  | nil => exact Or.inl (by simp [keyLE])
  | cons x xs ih =>
    cases b with
    | nil => exact Or.inr (by simp [keyLE])
    | cons y ys =>
      simp only [keyLE]
      rcases Nat.lt_trichotomy x.toNat y.toNat with h | h | h
      · exact Or.inl (by simp [h])
      · simpa [h] using ih ys
      · exact Or.inr (by simp [h])

theorem keyLE_trans (a b c : GoString) (hab : keyLE a b = true) (hbc : keyLE b c = true) :
    keyLE a c = true := by
  induction a generalizing b c with
  | nil => simp [keyLE]
  | cons x xs ih =>
    cases b with
    | nil => simp [keyLE] at hab
    | cons y ys =>
      cases c with
      | nil => simp [keyLE] at hbc
      | cons z zs =>
        simp only [keyLE] at hab hbc ⊢
        split_ifs at hab hbc ⊢ with h1 h2 h3 h4 h5 h6 <;>
          first
          | rfl
          | exact ih ys zs hab hbc
          | (exfalso; omega)

theorem keyLE_antisymm (a b : GoString) (hab : keyLE a b = true) (hba : keyLE b a = true) :
    a = b := by
  induction a generalizing b with
  | nil =>
    cases b with
    | nil => rfl
    | cons y ys => simp [keyLE] at hba
  | cons x xs ih =>
    cases b with
    | nil => simp [keyLE] at hab
    | cons y ys =>
      simp only [keyLE] at hab hba
      split_ifs at hab hba with h1 h2 h3 h4 <;>
        first
        | (exfalso; omega)
        | (rw [UInt8.ext h4, ih ys hab hba])

/-! ## Reads and writes of the map store -/

theorem mapStore_get_ret (ctx : Context) (key : GoString) (w : World MapStore) :
    (Client.GetWithContext mapClient ctx key w).ret
      = match w.store.find key with
        | some v => (some v, none)
        | none => (none, none) := by
  unfold Client.GetWithContext callGet
  simp only [mapClient, mapKV, MapStore.range, keySortOrder, MapStore.find, List.contains_nil,
    Bool.false_eq_true, if_false]
  induction w.store.kvs with
  | nil => simp
  | cons e rest ih =>
    by_cases h : e.1 == key
    · simp [List.filter_cons, h, MapStore.toRecord]
    · simp only [List.filter_cons, h, List.find?_cons]
      simpa using ih

theorem mapStore_set (now : Time) (key : GoString) (value : Bytes) (w : World MapStore) :
    (Client.Set mapClient now key value w).ret = none ∧
    (Client.Set mapClient now key value w).world.store = w.store.put key value.toGoString := by
  simp [Client.Set, Client.SetWithContext, callPut, mapClient, mapKV]

theorem find_put_same (m : MapStore) (key val : GoString) :
    (m.put key val).find key = some val := by
  simp [MapStore.put, MapStore.find]

theorem find_put_other (m : MapStore) (key key' val : GoString) (h : key' ≠ key) :
    (m.put key val).find key' = m.find key' := by
  have hk : (key == key') = false := by simpa using fun e => h e.symm
  simp only [MapStore.put, MapStore.find, List.find?_cons, hk]
  congr 1
  induction m.kvs with
  | nil => rfl
  | cons e rest ih =>
    by_cases he : e.1 == key'
    · have hne : (e.1 != key) = true := by
        have : e.1 = key' := by simpa using he
        simpa [this] using h
      simp [List.filter_cons, hne, he]
    · by_cases hne : (e.1 != key) = true
      · simp only [List.filter_cons, hne, if_true, List.find?_cons, he]
        exact ih
      · simp only [List.filter_cons, hne, List.find?_cons, he]
        exact ih

/-- C8: over the map store, `Set(k, v)` followed by `Get(k)` returns exactly the
bytes `v` and a nil error, for every byte sequence `v` (any byte values; the nil
slice, which `Set` converts to the empty string, comes back as the empty
sequence), and `Get` of any other key returns what it returned before the
`Set`. -/
theorem set_get_round_trip (now now' : Time) (k : GoString) (w : World MapStore) :
    (∀ v : List Byte, (Client.Set mapClient now k (some v) w).ret = none →
      (Client.Get mapClient now' k (Client.Set mapClient now k (some v) w).world).ret
        = (some v, none)) ∧
    ((Client.Set mapClient now k none w).ret = none →
      (Client.Get mapClient now' k (Client.Set mapClient now k none w).world).ret
        = (some [], none)) ∧
    (∀ (v : Bytes) (k' : GoString), k' ≠ k → (Client.Set mapClient now k v w).ret = none →
      (Client.Get mapClient now' k' (Client.Set mapClient now k v w).world).ret
        = (Client.Get mapClient now' k' w).ret) := by
  refine ⟨?_, ?_, ?_⟩
  · intro v _
    unfold Client.Get
    rw [mapStore_get_ret, (mapStore_set now k (some v) w).2, find_put_same]
    rfl
  · intro _
    unfold Client.Get
    rw [mapStore_get_ret, (mapStore_set now k none w).2, find_put_same]
    rfl
  · intro v k' hk _
    unfold Client.Get
    rw [mapStore_get_ret, mapStore_get_ret, (mapStore_set now k v w).2, find_put_other _ _ _ _ hk]

/-- C8 on a concrete map: bytes that are not valid UTF-8 come back unchanged, and
another key keeps its value. -/
theorem set_get_round_trip_witness :
    (Client.Get mapClient 3 [97]
        (Client.Set mapClient 0 [97] (some [255, 0, 200]) (freshWorld sampleMap)).world).ret
      = (some [255, 0, 200], none) ∧
    (Client.Get mapClient 3 [97, 98]
        (Client.Set mapClient 0 [97] (some [255, 0, 200]) (freshWorld sampleMap)).world).ret
      = (Client.Get mapClient 3 [97, 98] (freshWorld sampleMap)).ret :=
  ⟨(set_get_round_trip 0 3 [97] (freshWorld sampleMap)).1 [255, 0, 200] (by decide),
   (set_get_round_trip 0 3 [97] (freshWorld sampleMap)).2.2 (some [255, 0, 200]) [97, 98]
     (by decide) (by decide)⟩

/-! ## Listing by prefix -/

theorem range_listOpts (m : MapStore) (p : GoString) :
    m.range p listOpts
      = (m.kvs.filter fun e => p.isPrefixOf e.1).insertionSort
          fun a b => keyLE b.1 a.1 = true := rfl

theorem mapStore_list_ret (ctx : Context) (p : GoString) (w : World MapStore) :
    (Client.ListWithContext mapClient ctx p w).ret
      = if (w.store.range p listOpts).length = 0 then (none, none)
        else (some ((w.store.range p listOpts).map entryPair), none) := by
  unfold Client.ListWithContext callGet listOpts
  simp only [mapClient, mapKV, List.length_map]
  split
  · rfl
  · simp only [foldl_append_pairs, List.nil_append, List.map_map]
    rfl

theorem range_listOpts_perm (m : MapStore) (p : GoString) :
    (m.range p listOpts).Perm (m.kvs.filter fun e => p.isPrefixOf e.1) := by
  rw [range_listOpts]
  exact List.perm_insertionSort _ _

theorem range_listOpts_sorted (m : MapStore) (p : GoString) :
    (m.range p listOpts).Pairwise fun a b => keyLE b.1 a.1 = true := by
  rw [range_listOpts]
  exact @List.sorted_insertionSort _ (fun a b : GoString × List Byte => keyLE b.1 a.1 = true) _
    ⟨fun a b => (keyLE_total b.1 a.1)⟩ ⟨fun a b c hab hbc => keyLE_trans c.1 b.1 a.1 hbc hab⟩ _

theorem range_listOpts_nodup (m : MapStore) (p : GoString) (hu : m.UniqueKeys) :
    ((m.range p listOpts).map Prod.fst).Nodup := by
  have h₁ : ((m.kvs.filter fun e => p.isPrefixOf e.1).map Prod.fst).Nodup :=
    List.Nodup.sublist ((List.filter_sublist _).map Prod.fst) hu
  exact ((range_listOpts_perm m p).map Prod.fst).nodup_iff.2 h₁

theorem find_of_mem_entries (l : List (GoString × List Byte)) (hu : (l.map Prod.fst).Nodup)
    (k : GoString) (v : List Byte) (h : (k, v) ∈ l) :
    (l.find? fun e => e.1 == k).map Prod.snd = some v := by
  induction l with
  | nil => simp at h
  | cons e rest ih =>
    rw [List.map_cons, List.nodup_cons] at hu
    rcases List.mem_cons.1 h with he | he
    · subst he
      simp
    · have hne : (e.1 == k) = false := by
        simp only [beq_eq_false_iff_ne, ne_eq]
        intro hek
        exact hu.1 (hek ▸ List.mem_map_of_mem Prod.fst he)
      simp only [List.find?_cons, hne]
      exact ih hu.2 he

theorem find_of_mem (m : MapStore) (hu : m.UniqueKeys) (k : GoString) (v : List Byte)
    (h : (k, v) ∈ m.kvs) : m.find k = some v :=
  find_of_mem_entries m.kvs hu k v h

theorem find_none_of_absent (m : MapStore) (k : GoString) (h : ∀ e ∈ m.kvs, e.1 ≠ k) :
    m.find k = none := by
  unfold MapStore.find
  simp only [Option.map_eq_none', List.find?_eq_none]
  intro e he
  simpa using h e he

/-- C9: `ListWithContext` asks the store for a prefix match sorted by key in
descending order and `GetWithContext` for an exact-key match.  Over the map store
with unique keys, `List(p)` returns nil when no key has the prefix `p`, and
otherwise exactly the pairs whose key has `p` as a prefix, each key once, in
strictly decreasing key order; `Get(k)` returns the value stored under exactly
`k`, and nil when no entry has the key `k`, whatever longer keys start with
`k`. -/
theorem list_prefix_descending_get_exact (ctx : Context) (p k : GoString) (w : World MapStore)
    (hu : w.store.UniqueKeys) :
    ((Client.ListWithContext mapClient ctx p w).world.calls
        = w.calls ++ [Request.get ctx p [OpOption.WithPrefix,
            OpOption.WithSort SortTarget.SortByKey SortOrder.SortDescend]] ∧
     (Client.GetWithContext mapClient ctx k w).world.calls
        = w.calls ++ [Request.get ctx k []]) ∧
    ((∀ e ∈ w.store.kvs, ¬ p <+: e.1) →
      (Client.ListWithContext mapClient ctx p w).ret = (none, none)) ∧
    ((∃ e ∈ w.store.kvs, p <+: e.1) →
      ∃ list : KVList, (Client.ListWithContext mapClient ctx p w).ret = (some list, none) ∧
        (∀ (key : GoString) (val : Bytes), ({ Key := key, Value := val } : KVPair) ∈ list ↔
          ∃ v, val = some v ∧ (key, v) ∈ w.store.kvs ∧ p <+: key) ∧
        (list.map KVPair.Key).Nodup ∧
        list.Pairwise fun a b => keyLE b.Key a.Key = true ∧ keyLE a.Key b.Key = false) ∧
    (∀ v, (k, v) ∈ w.store.kvs →
      (Client.GetWithContext mapClient ctx k w).ret = (some v, none)) ∧
    ((∀ e ∈ w.store.kvs, e.1 ≠ k) →
      (Client.GetWithContext mapClient ctx k w).ret = (none, none)) := by
  refine ⟨⟨?_, ?_⟩, ?_, ?_, ?_, ?_⟩
  · rw [listWithContext_world]; rfl
  · rw [getWithContext_world]; rfl
  · intro hnone
    have hf : (w.store.kvs.filter fun e => p.isPrefixOf e.1) = [] := by
      rw [List.filter_eq_nil_iff]
      intro e he
      simpa [List.isPrefixOf_iff_prefix] using hnone e he
    have hl : (w.store.range p listOpts).length = 0 := by
      rw [(range_listOpts_perm w.store p).length_eq, hf]
      rfl
    rw [mapStore_list_ret, if_pos hl]
  · rintro ⟨e, he, hpe⟩
    have hmem : e ∈ w.store.range p listOpts :=
      (range_listOpts_perm w.store p).mem_iff.2
        (List.mem_filter.2 ⟨he, List.isPrefixOf_iff_prefix.2 hpe⟩)
    have hl : ¬ (w.store.range p listOpts).length = 0 := by
      intro h0
      rw [List.length_eq_zero] at h0
      rw [h0] at hmem
      simp at hmem
    refine ⟨(w.store.range p listOpts).map entryPair, ?_, ?_, ?_, ?_⟩
    · rw [mapStore_list_ret, if_neg hl]
    · intro key val
      simp only [List.mem_map, (range_listOpts_perm w.store p).mem_iff, List.mem_filter,
        List.isPrefixOf_iff_prefix, entryPair]
      constructor
      · rintro ⟨⟨k', v'⟩, ⟨hin, hp⟩, heq⟩
        simp only [KVPair.mk.injEq] at heq
        obtain ⟨rfl, rfl⟩ := heq
        exact ⟨v', rfl, hin, hp⟩
      · rintro ⟨v, rfl, hin, hp⟩
        exact ⟨(key, v), ⟨hin, hp⟩, rfl⟩
    · have hn := range_listOpts_nodup w.store p hu
      rw [List.map_map]
      exact hn
    · have hs := range_listOpts_sorted w.store p
      have hn : (w.store.range p listOpts).Pairwise fun a b => a.1 ≠ b.1 :=
        List.pairwise_map.1 (range_listOpts_nodup w.store p hu)
      rw [List.pairwise_map]
      refine (hs.and hn).imp ?_
      rintro a b ⟨hle, hne⟩
      refine ⟨hle, ?_⟩
      cases hab : keyLE a.1 b.1 with
      | false => exact hab
      | true => exact absurd (keyLE_antisymm a.1 b.1 hab hle) hne
  · intro v hv
    rw [mapStore_get_ret, find_of_mem w.store hu k v hv]
  · intro habs
    rw [mapStore_get_ret, find_none_of_absent w.store k habs]

/-- C9 on a concrete map with the keys `a`, `ab`, `abc` and `b`: listing `ab`
gives `abc` then `ab`, and reading `a` gives the value under `a` alone. -/
theorem list_prefix_descending_get_exact_witness :
    (∃ list : KVList,
      (Client.ListWithContext mapClient Context.todo [97, 98] (freshWorld sampleMap)).ret
        = (some list, none) ∧
      (∀ (key : GoString) (val : Bytes), ({ Key := key, Value := val } : KVPair) ∈ list ↔
        ∃ v, val = some v ∧ (key, v) ∈ (freshWorld sampleMap).store.kvs ∧ [97, 98] <+: key) ∧
      (list.map KVPair.Key).Nodup ∧
      list.Pairwise fun a b => keyLE b.Key a.Key = true ∧ keyLE a.Key b.Key = false) ∧
    (Client.GetWithContext mapClient Context.todo [97] (freshWorld sampleMap)).ret
      = (some [1], none) :=
  ⟨(list_prefix_descending_get_exact Context.todo [97, 98] [97] (freshWorld sampleMap)
      (by decide)).2.2.1 ⟨([97, 98], [2]), by decide, by decide⟩,
   (list_prefix_descending_get_exact Context.todo [97, 98] [97] (freshWorld sampleMap)
      (by decide)).2.2.2.1 [1] (by decide)⟩

end Etcdv3

